import Mathlib

/-!
Verification of the perenual-scapper repository (src/main.py, src/merge_data.py).

The Python source is shallowly embedded: strings are Lean `String`s (lists of
characters), Python's single-character `str.replace`, `str.strip` and ASCII
`str.lower` become executable functions on `List Char`, pandas DataFrames
become column lists plus row lists, and each `try/except` group becomes an
explicit `Except` value.  Case folding is modelled on the ASCII range, which
is the range Python's `str.lower` and the site's field labels use.
-/

namespace Perenual

/-- Whitespace test matching the characters Python's `str.strip` removes in
the ASCII range (space, tab, newline, carriage return, vertical tab, form
feed). -/
def isWs (c : Char) : Bool :=
  c = ' ' || c = '\t' || c = '\n' || c = '\r' || c = '\x0b' || c = '\x0c'

/-- The ASCII upper/lower case table used to model Python's `str.lower`. -/
def casePairs : List (Char × Char) :=
  [('A', 'a'), ('B', 'b'), ('C', 'c'), ('D', 'd'), ('E', 'e'), ('F', 'f'), ('G', 'g'),
   ('H', 'h'), ('I', 'i'), ('J', 'j'), ('K', 'k'), ('L', 'l'), ('M', 'm'), ('N', 'n'),
   ('O', 'o'), ('P', 'p'), ('Q', 'q'), ('R', 'r'), ('S', 's'), ('T', 't'), ('U', 'u'),
   ('V', 'v'), ('W', 'w'), ('X', 'x'), ('Y', 'y'), ('Z', 'z')]

/-- ASCII lower-casing of one character (model of Python `str.lower`
restricted to one character). -/
def lowerChar (c : Char) : Char :=
  match casePairs.find? (fun p => p.1 == c) with
  | some p => p.2
  | none => c

/-- Lower-case every character: model of Python `str.lower`. -/
def lowerAll (l : List Char) : List Char := l.map lowerChar

/-- Remove leading whitespace (left half of Python `str.strip`). -/
def ltrim (l : List Char) : List Char := l.dropWhile isWs

/-- Remove trailing whitespace (right half of Python `str.strip`). -/
def rtrim (l : List Char) : List Char := (ltrim l.reverse).reverse

/-- Model of Python `str.strip()`: drop whitespace from both ends. -/
def trim (l : List Char) : List Char := rtrim (ltrim l)

/-- Model of Python `s.replace(c, "")` for a single character `c`. -/
def removeAll (a : Char) (l : List Char) : List Char := l.filter (fun c => c != a)

/-- Model of Python `s.replace(a, b)` for single characters `a`, `b`. -/
def replaceChar (a b : Char) (l : List Char) : List Char :=
  l.map (fun c => if c = a then b else c)

/-- Build a string back from its characters. -/
def strOf (l : List Char) : String := String.mk l

/-- Python `str.strip()` at the `String` level. -/
def trimStr (s : String) : String := strOf (trim s.data)

/-- The character pipeline shared by the two `extract_plant_info`
normalizations (src/main.py lines 35-39): delete every `k`, strip, replace
every space with an underscore, strip, lower-case. -/
def normChain (k : Char) (l : List Char) : List Char :=
  lowerAll (trim (replaceChar ' ' '_' (trim (removeAll k l))))

/-- Label normalization of `extract_plant_info` (src/main.py lines 35-36):
`str(label).replace(":", "").strip()` then
`.replace(" ", "_").strip().lower()`. -/
def normInfoLabel (s : String) : String :=
  strOf (normChain ':' s.data)

/-- Value normalization of `extract_plant_info` (src/main.py lines 38-39):
`str(value).replace("\n", "").strip()` then
`.replace(" ", "_").strip().lower()`. -/
def normInfoValue (s : String) : String :=
  strOf (normChain '\n' s.data)

/-- Label normalization of `extract_care_description` (src/main.py line 79):
`str(label).strip().lower().replace(":", "")`. -/
def careNormLabel (s : String) : String :=
  strOf (removeAll ':' (lowerAll (trim s.data)))

/-- Value normalization of `extract_care_description` (src/main.py line 80):
`str(value).strip().replace("\n", " ").strip().lower()`. -/
def careNormValue (s : String) : String :=
  strOf (lowerAll (trim (replaceChar '\n' ' ' (trim s.data))))

/-!  ## Records (pandas single-row DataFrame / Python dict model)

A record is kept as an ordered association list with the semantics of
`data.loc[i, k] = v` on a one-row DataFrame (and of Python dict insertion):
assigning an existing column overwrites its cell in place, assigning a new
column appends it. -/

/-- One `data.loc[i, k] = v` assignment / one dict insertion. -/
def setField (r : List (String × String)) (k v : String) : List (String × String) :=
  if k ∈ r.map Prod.fst then
    r.map (fun kv => if kv.1 = k then (k, v) else kv)
  else
    r ++ [(k, v)]

/-- The column names of a record, in insertion order. -/
def fields (r : List (String × String)) : List String := r.map Prod.fst

/-- Read a record's cell by column name. -/
def getField : List (String × String) → String → Option String
  | [], _ => none
  | kv :: r, k => if kv.1 = k then some kv.2 else getField r k

/-!  ## Field extractors (src/main.py)

A block read from the page either yields text or raises; a raised read is an
`Except.error` and the corresponding `except` branch of the source skips the
block. -/

/-- One loop iteration of `extract_plant_info` (src/main.py lines 29-44): one
`Except` per block covering the two `inner_text` reads of that block; a
failed block is skipped by its `except` branch, a successful one inserts the
normalized label/value pair into the dict. -/
def infoStep (acc : List (String × String)) (b : Except Unit (String × String)) :
    List (String × String) :=
  match b with
  | .error _ => acc
  | .ok lv => setField acc (normInfoLabel lv.1) (normInfoValue lv.2)

/-- Model of `extract_plant_info` (src/main.py lines 24-46). -/
def extract_plant_info (blocks : List (Except Unit (String × String))) :
    List (String × String) :=
  blocks.foldl infoStep []

/-- One loop iteration of `extract_care_description` (src/main.py lines
74-91): a block whose reads fail is skipped, and a pair is inserted only
when both the cleaned label and the cleaned value are non-empty. -/
def careStep (acc : List (String × String))
    (lv : Except Unit String × Except Unit String) : List (String × String) :=
  match lv.1, lv.2 with
  | .ok label, .ok value =>
    let cl := careNormLabel label
    let cv := careNormValue value
    if cl ≠ "" ∧ cv ≠ "" then setField acc cl cv else acc
  | _, _ => acc

/-- Model of `extract_care_description` (src/main.py lines 48-96): if the label block
count differs from the value block count the function returns the still-empty
dict; otherwise blocks are paired by index and folded with `careStep`. -/
def extract_care_description (labels values : List (Except Unit String)) :
    List (String × String) :=
  if labels.length ≠ values.length then []
  else (labels.zip values).foldl careStep []

/-- Model of `extract_scientific_name` (src/main.py lines 15-22): the trimmed element
text, or the empty string when the read raises. -/
def extract_scientific_name (read : Except Unit String) : String :=
  match read with
  | .ok s => trimStr s
  | .error _ => ""

/-!  ## Record assembly and crawl loop (src/main.py `main`, lines 98-170) -/

/-- The outcome of opening one species page: either `page.goto` (or anything
before the extraction block) raises, or the page loads and each of the three
extractor groups independently either returns its fields or raises. -/
inductive PageOutcome
  | gotoFail
  | loaded (sci : Except Unit String)
      (info : Except Unit (List (String × String)))
      (care : Except Unit (List (String × String)))

/-- One `try/except`-wrapped group write of `main` (src/main.py lines
141-153): when the group's extractor returned a dict, its pairs are written
field by field with `data.loc`; when it raised, the record is left as it
was. -/
def applyFields (r : List (String × String))
    (res : Except Unit (List (String × String))) : List (String × String) :=
  match res with
  | .ok d => d.foldl (fun acc kv => setField acc kv.1 kv.2) r
  | .error _ => r

/-- The record built for page `i` (src/main.py lines 123-153): `id` is set
unconditionally, then each of the three extractor groups is wrapped in its
own `try/except`, so a failing group contributes nothing while the others
still run. -/
def buildRecord (i : Nat) (sci : Except Unit String)
    (info care : Except Unit (List (String × String))) :
    List (String × String) :=
  applyFields
    (applyFields
      (match sci with
       | .ok s => setField (setField [] "id" (toString i)) "scientific_name" s
       | .error _ => setField [] "id" (toString i))
      info)
    care

/-- Observable steps of one loop iteration of `main`. -/
inductive CrawlEvent
  | logSkip (i : Nat)
  | openPage (i : Nat)
  | save (i : Nat) (record : List (String × String))
  | delay (i : Nat)
deriving DecidableEq

/-- Events of the iteration for id `i` (src/main.py lines 116-168): when the
per-page file exists the id is logged and skipped before any page is opened;
otherwise a page accessor is opened, and if the navigation raises the outer
`except` moves to the next id with no save and no delay, while on a loaded
page the record is saved and the randomized delay runs. -/
def pageEvents (i : Nat) (fileExists : Bool) (po : PageOutcome) : List CrawlEvent :=
  if fileExists then [.logSkip i]
  else
    match po with
    | .gotoFail => [.openPage i]
    | .loaded sci info care =>
      [.openPage i, .save i (buildRecord i sci info care), .delay i]

/-- The event trace of `main`'s crawl loop over `range(startPage, endPage)`
(src/main.py line 115). -/
def crawlEvents (fileExists : Nat → Bool) (outcome : Nat → PageOutcome)
    (startPage endPage : Nat) : List CrawlEvent :=
  (List.range' startPage (endPage - startPage)).flatMap
    (fun i => pageEvents i (fileExists i) (outcome i))

/-!  ## Schema unifier / merger (src/merge_data.py `merge_csvs`)

A per-page CSV file is modelled by how the two pandas reads of the source see
it: `empty` raises `EmptyDataError` on both reads, `malformed` yields its
header to the header-only read of pass 1 but raises a `ParserError` on the
full read of pass 2, and `table` yields its columns and rows. -/

inductive CsvFile
  | empty
  | malformed (header : List String)
  | table (cols : List String) (rows : List (List String))
deriving DecidableEq

inductive ReadErr
  | emptyData
  | parserError
deriving DecidableEq

/-- The header-only read `pd.read_csv(f, nrows=0).columns` (src/merge_data.py line 25). -/
def readHeader : CsvFile → Except ReadErr (List String)
  | .empty => .error .emptyData
  | .malformed h => .ok h
  | .table cols _ => .ok cols

/-- The full read `pd.read_csv(f)` (src/merge_data.py line 42). -/
def readFull : CsvFile → Except ReadErr (List String × List (List String))
  | .empty => .error .emptyData
  | .malformed _ => .error .parserError
  | .table cols rows => .ok (cols, rows)

/-- Model of `all_columns.update(cols)` on a set kept as a duplicate-free list. -/
def addCols (acc cols : List String) : List String :=
  cols.foldl (fun a c => if c ∈ a then a else a ++ [c]) acc

/-- Pass 1 of `merge_csvs` (src/merge_data.py lines 21-28): collect the union
of the headers, skipping files that raise `EmptyDataError`. -/
def pass1 (files : List CsvFile) : List String :=
  files.foldl
    (fun acc f =>
      match readHeader f with
      | .ok cols => addCols acc cols
      | .error _ => acc)
    []

/-- Code-point comparison of characters, then lexicographic comparison of
strings: the order Python's `sorted` uses on `str`. -/
def lexLe : List Char → List Char → Bool
  | [], _ => true
  | _ :: _, [] => false
  | a :: as, b :: bs =>
    if a.toNat < b.toNat then true
    else if b.toNat < a.toNat then false
    else lexLe as bs

/-- Comparison `a <= b` on strings as Python compares them. -/
def strLe (a b : String) : Bool := lexLe a.data b.data

/-- Model of `sorted(list(all_columns))` (src/merge_data.py line 30). -/
def sortCols (l : List String) : List String :=
  List.insertionSort (fun a b => strLe a b = true) l

/-- Model of `df.reindex(columns=final_columns)` applied to one row (src/merge_data.py
line 44): the row is rebuilt on the master schema, a column absent from the
source file becomes null (`none`), a present column is carried over by name. -/
def reindexRow (cols : List String) (finalCols : List String)
    (row : List String) : List (Option String) :=
  finalCols.map
    (fun c => if c ∈ cols then some (row.getD (List.indexOf c cols) "") else none)

/-- Pass 2 of `merge_csvs` (src/merge_data.py lines 40-48): append each
file's reindexed rows; a file raising `EmptyDataError` is skipped by the
`except` branch, but any other read failure escapes the loop, so the result
carries the rows written so far and an aborted flag. -/
def pass2 (finalCols : List String) : List CsvFile → List (List (Option String)) × Bool
  | [] => ([], false)
  | f :: fs =>
    match readFull f with
    | .error .emptyData => pass2 finalCols fs
    | .error .parserError => ([], true)
    | .ok cr =>
      let rest := pass2 finalCols fs
      (cr.2.map (reindexRow cr.1 finalCols) ++ rest.1, rest.2)

/-- Result of one `merge_csvs` invocation: `noFiles` when the glob matches
nothing (the output is not touched), `ok header rows` for a completed merge,
and `aborted header written` when an uncaught read error escapes after the
header and `written` rows were already emitted. -/
inductive MergeResult
  | noFiles
  | aborted (header : List String) (written : List (List (Option String)))
  | ok (header : List String) (rows : List (List (Option String)))
deriving DecidableEq

/-- Model of `merge_csvs` (src/merge_data.py lines 6-50): nothing to merge when the
glob matches no file; otherwise the sorted union of the discovered headers
is written, followed by every file's reindexed rows, unless an uncaught read
error aborts pass 2 midway. -/
def merge_csvs (files : List CsvFile) : MergeResult :=
  if files.isEmpty then .noFiles
  else if (pass2 (sortCols (pass1 files)) files).2 then
    .aborted (sortCols (pass1 files)) (pass2 (sortCols (pass1 files)) files).1
  else .ok (sortCols (pass1 files)) (pass2 (sortCols (pass1 files)) files).1

/-- Holds exactly for the files whose full read raises an error other than
`EmptyDataError`. -/
def isMalformed : CsvFile → Bool
  | .malformed _ => true
  | _ => false

/-!  ## Character-level lemmas -/

lemma casePairs_fst_ne_snd : ∀ q ∈ casePairs, ∀ r ∈ casePairs, q.1 ≠ r.2 := by decide

lemma casePairs_not_ws : ∀ p ∈ casePairs, isWs p.1 = false ∧ isWs p.2 = false := by decide

lemma lowerChar_lowerChar (c : Char) : lowerChar (lowerChar c) = lowerChar c := by
  cases h : casePairs.find? (fun p => p.1 == c) with
  | none =>
    have h1 : lowerChar c = c := by unfold lowerChar; rw [h]
    rw [h1]
    exact h1
  | some p =>
    have h1 : lowerChar c = p.2 := by unfold lowerChar; rw [h]
    have hp : p ∈ casePairs := List.mem_of_find?_eq_some h
    have hnone : casePairs.find? (fun q => q.1 == p.2) = none := by
      rw [List.find?_eq_none]
      intro q hq
      simpa using casePairs_fst_ne_snd q hq p hp
    have h2 : lowerChar p.2 = p.2 := by unfold lowerChar; rw [hnone]
    rw [h1, h2]

lemma isWs_lowerChar (c : Char) : isWs (lowerChar c) = isWs c := by
  unfold lowerChar
  cases h : casePairs.find? (fun p => p.1 == c) with
  | none => rfl
  | some p =>
    have hp : p ∈ casePairs := List.mem_of_find?_eq_some h
    have hc : p.1 = c := by simpa using List.find?_some h
    rw [(casePairs_not_ws p hp).2, ← hc, (casePairs_not_ws p hp).1]

lemma lowerChar_eq_of_not_snd {t : Char} (ht : t ∉ casePairs.map Prod.snd) {c : Char}
    (h : lowerChar c = t) : c = t := by
  cases hf : casePairs.find? (fun p => p.1 == c) with
  | none =>
    have h1 : lowerChar c = c := by unfold lowerChar; rw [hf]
    rw [← h, h1]
  | some p =>
    have h1 : lowerChar c = p.2 := by unfold lowerChar; rw [hf]
    have hp2 : p.2 ∈ casePairs.map Prod.snd :=
      List.mem_map_of_mem Prod.snd (List.mem_of_find?_eq_some hf)
    rw [h1] at h
    rw [h] at hp2
    exact absurd hp2 ht

lemma colon_not_snd : (':') ∉ casePairs.map Prod.snd := by decide

lemma space_not_snd : (' ') ∉ casePairs.map Prod.snd := by decide

lemma newline_not_snd : ('\n') ∉ casePairs.map Prod.snd := by decide

/-!  ## Trim lemmas -/

lemma dropWhile_dropWhile (p : Char → Bool) (l : List Char) :
    (l.dropWhile p).dropWhile p = l.dropWhile p := by
  induction l with
  | nil => rfl
  | cons a l ih =>
    by_cases h : p a
    · simp [List.dropWhile_cons, h, ih]
    · simp [List.dropWhile_cons, h]

lemma ltrim_ltrim (l : List Char) : ltrim (ltrim l) = ltrim l :=
  dropWhile_dropWhile isWs l

lemma rtrim_rtrim (l : List Char) : rtrim (rtrim l) = rtrim l := by
  unfold rtrim
  rw [List.reverse_reverse, ltrim_ltrim]

lemma isWs_head_false_of_ltrim_fix {c : Char} {t : List Char}
    (h : ltrim (c :: t) = c :: t) : isWs c = false := by
  by_contra hc
  rw [Bool.not_eq_false] at hc
  rw [ltrim, List.dropWhile_cons, if_pos hc] at h
  have h1 : (t.dropWhile isWs).length ≤ t.length := (List.dropWhile_sublist isWs).length_le
  have h2 := congrArg List.length h
  simp at h2
  omega

lemma dropWhile_append_singleton (p : Char → Bool) (xs : List Char) (c : Char)
    (hc : p c = false) :
    List.dropWhile p (xs ++ [c]) =
      (if List.dropWhile p xs = [] then [] else List.dropWhile p xs) ++ [c] := by
  induction xs with
  | nil => simp [List.dropWhile_cons, hc]
  | cons x xs ih =>
    by_cases h : p x
    · simpa [List.dropWhile_cons, h] using ih
    · simp [List.dropWhile_cons, h]

lemma ltrim_rtrim (l : List Char) (h : ltrim l = l) : ltrim (rtrim l) = rtrim l := by
  cases l with
  | nil => rfl
  | cons c t =>
    have hc : isWs c = false := isWs_head_false_of_ltrim_fix h
    have h1 : rtrim (c :: t) =
        c :: (if List.dropWhile isWs t.reverse = [] then []
              else List.dropWhile isWs t.reverse).reverse := by
      unfold rtrim ltrim
      rw [List.reverse_cons, dropWhile_append_singleton isWs t.reverse c hc,
        List.reverse_append]
      rfl
    rw [h1, ltrim, List.dropWhile_cons, if_neg (by simp [hc])]

lemma trim_idem (l : List Char) : trim (trim l) = trim l := by
  unfold trim
  rw [ltrim_rtrim (ltrim l) (ltrim_ltrim l), rtrim_rtrim]

lemma mem_of_mem_ltrim {c : Char} {l : List Char} (h : c ∈ ltrim l) : c ∈ l :=
  (List.dropWhile_sublist isWs).mem h

lemma mem_of_mem_rtrim {c : Char} {l : List Char} (h : c ∈ rtrim l) : c ∈ l := by
  unfold rtrim at h
  rw [List.mem_reverse] at h
  exact List.mem_reverse.mp (mem_of_mem_ltrim h)

lemma mem_of_mem_trim {c : Char} {l : List Char} (h : c ∈ trim l) : c ∈ l :=
  mem_of_mem_ltrim (mem_of_mem_rtrim h)

lemma ltrim_lowerAll (l : List Char) : ltrim (lowerAll l) = lowerAll (ltrim l) := by
  unfold ltrim lowerAll
  rw [List.dropWhile_map]
  rw [show (isWs ∘ lowerChar) = isWs from funext isWs_lowerChar]

lemma rtrim_lowerAll (l : List Char) : rtrim (lowerAll l) = lowerAll (rtrim l) := by
  unfold rtrim
  rw [show (lowerAll l).reverse = lowerAll l.reverse by
        unfold lowerAll; rw [List.map_reverse],
      ltrim_lowerAll]
  unfold lowerAll
  rw [List.map_reverse]

lemma trim_lowerAll (l : List Char) : trim (lowerAll l) = lowerAll (trim l) := by
  unfold trim
  rw [ltrim_lowerAll, rtrim_lowerAll]

/-!  ## No-op and membership lemmas for the map/filter text operations -/

lemma replaceChar_eq_self {a : Char} (b : Char) {l : List Char} (h : a ∉ l) :
    replaceChar a b l = l := by
  unfold replaceChar
  have h1 : ∀ c ∈ l, (if c = a then b else c) = c := by
    intro c hc
    rw [if_neg]
    intro e
    rw [e] at hc
    exact h hc
  rw [List.map_congr_left h1]
  exact List.map_id l

lemma removeAll_eq_self {a : Char} {l : List Char} (h : a ∉ l) :
    removeAll a l = l := by
  unfold removeAll
  rw [List.filter_eq_self]
  intro c hc
  rw [bne_iff_ne]
  intro e
  rw [e] at hc
  exact h hc

lemma lowerAll_eq_self {l : List Char} (h : ∀ c ∈ l, lowerChar c = c) :
    lowerAll l = l := by
  unfold lowerAll
  rw [List.map_congr_left h]
  exact List.map_id l

lemma mem_replaceChar {c a b : Char} {l : List Char} (h : c ∈ replaceChar a b l) :
    c = b ∨ (c ∈ l ∧ c ≠ a) := by
  unfold replaceChar at h
  rw [List.mem_map] at h
  obtain ⟨w, hw, hwc⟩ := h
  by_cases hwa : w = a
  · left; rw [← hwc, if_pos hwa]
  · right
    rw [← hwc, if_neg hwa]
    exact ⟨hw, hwa⟩

lemma mem_removeAll {c a : Char} {l : List Char} (h : c ∈ removeAll a l) :
    c ∈ l ∧ c ≠ a := by
  unfold removeAll at h
  rw [List.mem_filter] at h
  simpa using h

lemma mem_lowerAll {c : Char} {l : List Char} (h : c ∈ lowerAll l) :
    ∃ w ∈ l, lowerChar w = c := by
  unfold lowerAll at h
  exact List.mem_map.mp h

lemma lowerChar_fixed_of_mem_lowerAll {c : Char} {l : List Char} (h : c ∈ lowerAll l) :
    lowerChar c = c := by
  obtain ⟨w, _, hw⟩ := mem_lowerAll h
  rw [← hw, lowerChar_lowerChar]

/-!  ## The info normalization pipeline -/

lemma mem_normChain_src {c k : Char} {l : List Char} (h : c ∈ normChain k l) :
    ∃ y, lowerChar y = c ∧ (y = '_' ∨ (y ∈ l ∧ y ≠ k ∧ y ≠ ' ')) := by
  unfold normChain at h
  obtain ⟨y, hy, hyc⟩ := mem_lowerAll h
  rcases mem_replaceChar (mem_of_mem_trim hy) with h1 | ⟨h1, hys⟩
  · exact ⟨y, hyc, Or.inl h1⟩
  · obtain ⟨hyl, hyk⟩ := mem_removeAll (mem_of_mem_trim h1)
    exact ⟨y, hyc, Or.inr ⟨hyl, hyk, hys⟩⟩

lemma normChain_no_space (k : Char) (l : List Char) : (' ') ∉ normChain k l := by
  intro h
  obtain ⟨y, hyc, hcase⟩ := mem_normChain_src h
  have hy : y = ' ' := lowerChar_eq_of_not_snd space_not_snd hyc
  rcases hcase with h1 | ⟨_, _, h3⟩
  · rw [hy] at h1; exact absurd h1 (by decide)
  · exact h3 hy

lemma normChain_no_k {k : Char} (hk1 : k ∉ casePairs.map Prod.snd) (hk2 : k ≠ '_')
    (l : List Char) : k ∉ normChain k l := by
  intro h
  obtain ⟨y, hyc, hcase⟩ := mem_normChain_src h
  have hy : y = k := lowerChar_eq_of_not_snd hk1 hyc
  rcases hcase with h1 | ⟨_, h2, _⟩
  · rw [hy] at h1; exact hk2 h1
  · exact h2 hy

lemma normChain_fixed {c k : Char} {l : List Char} (h : c ∈ normChain k l) :
    lowerChar c = c :=
  lowerChar_fixed_of_mem_lowerAll h

lemma trim_normChain (k : Char) (l : List Char) : trim (normChain k l) = normChain k l := by
  unfold normChain
  rw [trim_lowerAll, trim_idem]

lemma normChain_idem {k : Char} (hk1 : k ∉ casePairs.map Prod.snd) (hk2 : k ≠ '_')
    (l : List Char) : normChain k (normChain k l) = normChain k l := by
  show lowerAll (trim (replaceChar ' ' '_' (trim (removeAll k (normChain k l))))) =
    normChain k l
  rw [removeAll_eq_self (normChain_no_k hk1 hk2 l), trim_normChain,
    replaceChar_eq_self '_' (normChain_no_space k l), trim_normChain]
  exact lowerAll_eq_self (fun c hc => normChain_fixed hc)

/-!  ## The care normalization pipeline -/

lemma careChain_fixed {c : Char} {l : List Char}
    (h : c ∈ removeAll ':' (lowerAll (trim l))) : lowerChar c = c :=
  lowerChar_fixed_of_mem_lowerAll (mem_removeAll h).1

lemma careChain_no_colon {l : List Char} : (':') ∉ removeAll ':' (lowerAll (trim l)) :=
  fun h => (mem_removeAll h).2 rfl

/-!  ## Record lemmas -/

lemma fields_setField (r : List (String × String)) (k v : String) :
    fields (setField r k v) = if k ∈ fields r then fields r else fields r ++ [k] := by
  unfold setField fields
  by_cases h : k ∈ r.map Prod.fst
  · rw [if_pos h, if_pos h, List.map_map]
    apply List.map_congr_left
    intro kv _
    by_cases hkv : kv.1 = k
    · simp [Function.comp, hkv]
    · simp [Function.comp, hkv]
  · rw [if_neg h, if_neg h, List.map_append]
    rfl

lemma mem_fields_setField_self (r : List (String × String)) (k v : String) :
    k ∈ fields (setField r k v) := by
  rw [fields_setField]
  by_cases h : k ∈ fields r
  · rw [if_pos h]; exact h
  · rw [if_neg h]; exact List.mem_append_right _ (List.mem_singleton.mpr rfl)

lemma mem_fields_setField_mono {r : List (String × String)} {k' : String} (k v : String)
    (h : k' ∈ fields r) : k' ∈ fields (setField r k v) := by
  rw [fields_setField]
  by_cases h1 : k ∈ fields r
  · rw [if_pos h1]; exact h
  · rw [if_neg h1]; exact List.mem_append_left _ h

lemma getField_substMap (r : List (String × String)) (k v : String) :
    getField (r.map (fun kv => if kv.1 = k then (k, v) else kv)) k =
      if k ∈ fields r then some v else none := by
  induction r with
  | nil => rfl
  | cons kv t ih =>
    by_cases h : kv.1 = k
    · simp [getField, fields, h]
    · simp only [List.map_cons, if_neg h, getField, fields]
      rw [ih]
      have h1 : ¬k = kv.1 := fun e => h e.symm
      by_cases h2 : k ∈ List.map Prod.fst t
      · rw [if_pos (show k ∈ fields t from h2), if_pos (List.mem_cons_of_mem kv.1 h2)]
      · rw [if_neg (show k ∉ fields t from h2),
          if_neg (by simp [List.mem_cons, h1, h2])]

lemma getField_append_single {r : List (String × String)} {k : String}
    (h : k ∉ fields r) (v : String) : getField (r ++ [(k, v)]) k = some v := by
  induction r with
  | nil => simp [getField]
  | cons kv t ih =>
    rw [fields, List.map_cons] at h
    simp only [List.mem_cons] at h
    push_neg at h
    rw [List.cons_append, getField, if_neg (fun e => h.1 e.symm)]
    exact ih h.2

lemma getField_setField_self (r : List (String × String)) (k v : String) :
    getField (setField r k v) k = some v := by
  unfold setField
  by_cases h : k ∈ r.map Prod.fst
  · rw [if_pos h, getField_substMap, if_pos (show k ∈ fields r from h)]
  · rw [if_neg h]
    exact getField_append_single h v

lemma getField_substMap_ne (r : List (String × String)) {k k' : String} (v : String)
    (h : k' ≠ k) :
    getField (r.map (fun kv => if kv.1 = k then (k, v) else kv)) k' = getField r k' := by
  induction r with
  | nil => rfl
  | cons kv t ih =>
    by_cases hkv : kv.1 = k
    · rw [List.map_cons, if_pos hkv, getField, getField,
        if_neg (fun e => h e.symm), if_neg (fun e => h (hkv ▸ e).symm), ih]
    · rw [List.map_cons, if_neg hkv, getField, getField, ih]

lemma getField_append_single_ne (r : List (String × String)) {k k' : String} (v : String)
    (h : k' ≠ k) : getField (r ++ [(k, v)]) k' = getField r k' := by
  induction r with
  | nil =>
    show (if k = k' then some v else none) = (none : Option String)
    rw [if_neg (fun e => h e.symm)]
  | cons kv t ih =>
    show (if kv.1 = k' then some kv.2 else getField (t ++ [(k, v)]) k') =
      (if kv.1 = k' then some kv.2 else getField t k')
    rw [ih]

lemma getField_setField_ne (r : List (String × String)) {k k' : String} (v : String)
    (h : k' ≠ k) : getField (setField r k v) k' = getField r k' := by
  unfold setField
  by_cases h1 : k ∈ r.map Prod.fst
  · rw [if_pos h1, getField_substMap_ne r v h]
  · rw [if_neg h1, getField_append_single_ne r v h]

lemma mem_fields_foldl (d : List (String × String)) {k : String} :
    ∀ r, k ∈ fields r →
      k ∈ fields (d.foldl (fun acc kv => setField acc kv.1 kv.2) r) := by
  induction d with
  | nil => exact fun r h => h
  | cons hd tl ih =>
    intro r h
    exact ih _ (mem_fields_setField_mono hd.1 hd.2 h)

lemma key_mem_fields_foldl {d : List (String × String)} {kv : String × String}
    (hkv : kv ∈ d) :
    ∀ r, kv.1 ∈ fields (d.foldl (fun acc kv => setField acc kv.1 kv.2) r) := by
  induction d with
  | nil => exact absurd hkv (List.not_mem_nil kv)
  | cons hd tl ih =>
    intro r
    rcases List.mem_cons.mp hkv with h | h
    · rw [List.foldl_cons]
      exact mem_fields_foldl tl _ (h ▸ mem_fields_setField_self r hd.1 hd.2)
    · exact ih h _

lemma getField_foldl_not_mem {d : List (String × String)} {k : String}
    (h : k ∉ d.map Prod.fst) :
    ∀ r, getField (d.foldl (fun acc kv => setField acc kv.1 kv.2) r) k = getField r k := by
  induction d with
  | nil => exact fun r => rfl
  | cons hd tl ih =>
    intro r
    rw [List.map_cons] at h
    simp only [List.mem_cons] at h
    push_neg at h
    rw [List.foldl_cons, ih h.2, getField_setField_ne r hd.2 h.1]

lemma foldl_setField_append (ops : List (String × String)) :
    ∀ acc, (ops.map Prod.fst).Nodup → (∀ kv ∈ ops, kv.1 ∉ fields acc) →
      ops.foldl (fun a kv => setField a kv.1 kv.2) acc = acc ++ ops := by
  induction ops with
  | nil => intro acc _ _; simp
  | cons hd tl ih =>
    intro acc hnd hdisj
    rw [List.map_cons, List.nodup_cons] at hnd
    have h1 : setField acc hd.1 hd.2 = acc ++ [hd] := by
      unfold setField
      rw [if_neg
        (show hd.1 ∉ List.map Prod.fst acc from hdisj hd (List.mem_cons_self hd tl))]
    rw [List.foldl_cons, h1, ih (acc ++ [hd]) hnd.2]
    · rw [List.append_assoc]
      rfl
    · intro kv hkv
      have h2 : kv.1 ∉ fields acc := hdisj kv (List.mem_cons_of_mem hd hkv)
      have h3 : kv.1 ≠ hd.1 := fun e =>
        hnd.1 (e ▸ List.mem_map_of_mem Prod.fst hkv)
      rw [fields, List.map_append]
      simp only [List.mem_append]
      rintro (hc | hc)
      · exact h2 hc
      · exact h3 (List.mem_singleton.mp hc)

/-!  ## The string order used by `sorted` -/

lemma lexLe_cons_iff {x y : Char} {xs ys : List Char} :
    lexLe (x :: xs) (y :: ys) = true ↔
      x.toNat < y.toNat ∨ (x.toNat = y.toNat ∧ lexLe xs ys = true) := by
  by_cases h1 : x.toNat < y.toNat
  · simp [lexLe, h1]
  · by_cases h2 : y.toNat < x.toNat
    · have h3 : ¬x.toNat = y.toNat := by omega
      simp [lexLe, h1, h2, h3]
    · have h3 : x.toNat = y.toNat := by omega
      simp [lexLe, h1, h2, h3]

lemma lexLe_total (a : List Char) : ∀ b, lexLe a b = true ∨ lexLe b a = true := by
  induction a with
  | nil => intro b; left; rfl
  | cons x xs ih =>
    intro b
    cases b with
    | nil => right; rfl
    | cons y ys =>
      rcases Nat.lt_trichotomy x.toNat y.toNat with h | h | h
      · left; rw [lexLe_cons_iff]; exact Or.inl h
      · rcases ih ys with h3 | h3
        · left; rw [lexLe_cons_iff]; exact Or.inr ⟨h, h3⟩
        · right; rw [lexLe_cons_iff]; exact Or.inr ⟨h.symm, h3⟩
      · right; rw [lexLe_cons_iff]; exact Or.inl h

lemma lexLe_trans (a : List Char) :
    ∀ b c, lexLe a b = true → lexLe b c = true → lexLe a c = true := by
  induction a with
  | nil => intro b c _ _; rfl
  | cons x xs ih =>
    intro b c hab hbc
    cases b with
    | nil => exact absurd hab (by simp [lexLe])
    | cons y ys =>
      cases c with
      | nil => exact absurd hbc (by simp [lexLe])
      | cons z zs =>
        rw [lexLe_cons_iff] at hab hbc ⊢
        rcases hab with h1 | ⟨h1, h1r⟩
        · rcases hbc with h2 | ⟨h2, _⟩
          · exact Or.inl (by omega)
          · exact Or.inl (by omega)
        · rcases hbc with h2 | ⟨h2, h2r⟩
          · exact Or.inl (by omega)
          · exact Or.inr ⟨by omega, ih ys zs h1r h2r⟩

instance : IsTotal String (fun a b => strLe a b = true) :=
  ⟨fun a b => lexLe_total a.data b.data⟩

instance : IsTrans String (fun a b => strLe a b = true) :=
  ⟨fun a b c => lexLe_trans a.data b.data c.data⟩

lemma sorted_sortCols (l : List String) :
    (sortCols l).Sorted (fun a b => strLe a b = true) :=
  List.sorted_insertionSort _ l

lemma perm_sortCols (l : List String) : (sortCols l).Perm l :=
  List.perm_insertionSort _ l

lemma nodup_sortCols {l : List String} (h : l.Nodup) : (sortCols l).Nodup :=
  (perm_sortCols l).symm.nodup h

lemma mem_sortCols {c : String} {l : List String} : c ∈ sortCols l ↔ c ∈ l :=
  (perm_sortCols l).mem_iff

/-!  ## Merge lemmas -/

lemma mem_addCols {c : String} (cols : List String) :
    ∀ acc, c ∈ addCols acc cols ↔ c ∈ acc ∨ c ∈ cols := by
  induction cols with
  | nil => intro acc; simp [addCols]
  | cons x cols ih =>
    intro acc
    show c ∈ addCols (if x ∈ acc then acc else acc ++ [x]) cols ↔ _
    rw [ih]
    by_cases h : x ∈ acc
    · rw [if_pos h]
      simp only [List.mem_cons]
      constructor
      · rintro (h1 | h1)
        · exact Or.inl h1
        · exact Or.inr (Or.inr h1)
      · rintro (h1 | h1 | h1)
        · exact Or.inl h1
        · exact Or.inl (by rw [h1]; exact h)
        · exact Or.inr h1
    · rw [if_neg h]
      simp only [List.mem_append, List.mem_singleton, List.mem_cons]
      tauto

lemma nodup_addCols (cols : List String) :
    ∀ acc, acc.Nodup → (addCols acc cols).Nodup := by
  induction cols with
  | nil => exact fun acc h => h
  | cons x cols ih =>
    intro acc hacc
    show (addCols (if x ∈ acc then acc else acc ++ [x]) cols).Nodup
    apply ih
    by_cases h : x ∈ acc
    · rw [if_pos h]; exact hacc
    · rw [if_neg h, List.nodup_append]
      refine ⟨hacc, List.nodup_singleton x, ?_⟩
      intro a ha hax
      rw [List.mem_singleton] at hax
      exact h (hax ▸ ha)

lemma mem_pass1_aux {c : String} (files : List CsvFile) :
    ∀ acc, (c ∈ files.foldl
        (fun acc f =>
          match readHeader f with
          | .ok cols => addCols acc cols
          | .error _ => acc) acc
      ↔ c ∈ acc ∨ ∃ f ∈ files, ∃ cols, readHeader f = .ok cols ∧ c ∈ cols) := by
  induction files with
  | nil => intro acc; simp
  | cons f fs ih =>
    intro acc
    rw [List.foldl_cons]
    cases hf : readHeader f with
    | ok cols =>
      simp only [hf]
      rw [ih, mem_addCols]
      simp [List.mem_cons, exists_eq_or_imp, hf, or_assoc]
    | error e =>
      simp only [hf]
      rw [ih]
      simp [List.mem_cons, exists_eq_or_imp, hf]

lemma mem_pass1 {c : String} {files : List CsvFile} :
    c ∈ pass1 files ↔ ∃ f ∈ files, ∃ cols, readHeader f = .ok cols ∧ c ∈ cols := by
  unfold pass1
  rw [mem_pass1_aux]
  simp

lemma nodup_pass1 (files : List CsvFile) : (pass1 files).Nodup := by
  unfold pass1
  have haux : ∀ acc : List String, acc.Nodup →
      (files.foldl
        (fun acc f =>
          match readHeader f with
          | .ok cols => addCols acc cols
          | .error _ => acc) acc).Nodup := by
    induction files with
    | nil => exact fun acc h => h
    | cons f fs ih =>
      intro acc hacc
      rw [List.foldl_cons]
      cases hf : readHeader f with
      | ok cols =>
        simp only [hf]
        exact ih _ (nodup_addCols cols acc hacc)
      | error e =>
        simp only [hf]
        exact ih _ hacc
  exact haux [] List.nodup_nil

lemma pass2_rows_of_not_aborted (fc : List String) (files : List CsvFile)
    (h : (pass2 fc files).2 = false) :
    (pass2 fc files).1 = files.flatMap (fun f =>
      match readFull f with
      | .ok cr => cr.2.map (reindexRow cr.1 fc)
      | .error _ => []) := by
  induction files with
  | nil => rfl
  | cons f fs ih =>
    cases hf : readFull f with
    | error err =>
      cases err with
      | emptyData =>
        have e1 : pass2 fc (f :: fs) = pass2 fc fs := by simp [pass2, hf]
        rw [e1] at h
        rw [e1, ih h, List.flatMap_cons]
        simp [hf]
      | parserError =>
        have e1 : pass2 fc (f :: fs) = ([], true) := by simp [pass2, hf]
        rw [e1] at h
        exact absurd h (by simp)
    | ok cr =>
      have e1 : pass2 fc (f :: fs) =
          (cr.2.map (reindexRow cr.1 fc) ++ (pass2 fc fs).1, (pass2 fc fs).2) := by
        simp [pass2, hf]
      have h2 : (pass2 fc fs).2 = false := by rw [e1] at h; exact h
      rw [e1, List.flatMap_cons]
      simp only [hf]
      rw [← ih h2]

lemma pass2_not_aborted_of_no_malformed (fc : List String) (files : List CsvFile)
    (h : ∀ f ∈ files, isMalformed f = false) : (pass2 fc files).2 = false := by
  induction files with
  | nil => rfl
  | cons f fs ih =>
    have hfs : ∀ g ∈ fs, isMalformed g = false :=
      fun g hg => h g (List.mem_cons_of_mem f hg)
    cases f with
    | empty =>
      have e1 : pass2 fc (CsvFile.empty :: fs) = pass2 fc fs := by
        simp [pass2, readFull]
      rw [e1]
      exact ih hfs
    | malformed hdr =>
      exact absurd (h _ (List.mem_cons_self _ fs)) (by simp [isMalformed])
    | table cols rows =>
      have e1 : pass2 fc (CsvFile.table cols rows :: fs) =
          (rows.map (reindexRow cols fc) ++ (pass2 fc fs).1, (pass2 fc fs).2) := by
        simp [pass2, readFull]
      rw [e1]
      exact ih hfs

lemma reindexRow_getD (cols fc row : List String) {k : Nat} (hk : k < fc.length) :
    (reindexRow cols fc row).getD k none =
      if fc.getD k ("") ∈ cols then
        some (row.getD (List.indexOf (fc.getD k ("")) cols) "")
      else none := by
  unfold reindexRow
  have hk2 : k < (fc.map (fun c =>
      if c ∈ cols then some (row.getD (List.indexOf c cols) "") else none)).length := by
    rw [List.length_map]; exact hk
  rw [List.getD_eq_getElem _ _ hk2, List.getElem_map, List.getD_eq_getElem _ _ hk]

/-!  ## Crawl-loop lemmas -/

lemma crawl_aux (fileExists : Nat → Bool) (outcome : Nat → PageOutcome) :
    ∀ (n startPage : Nat),
      (∀ i, startPage ≤ i → i < startPage + n → fileExists i = true) →
      (List.range' startPage n).flatMap
          (fun i => pageEvents i (fileExists i) (outcome i)) =
        (List.range' startPage n).map CrawlEvent.logSkip := by
  intro n
  induction n with
  | zero => intro s _; rfl
  | succ n ih =>
    intro s h
    rw [List.range'_succ, List.flatMap_cons, List.map_cons]
    have h1 : fileExists s = true := h s (le_refl s) (by omega)
    rw [show pageEvents s (fileExists s) (outcome s) = [CrawlEvent.logSkip s] by
      unfold pageEvents; rw [h1]; rfl]
    rw [ih (s + 1) (fun i hi1 hi2 => h i (by omega) (by omega))]
    rfl

/-!  ## Extractor lemmas -/

lemma info_foldl_norm (blocks : List (String × String)) :
    ∀ acc, (blocks.map Except.ok).foldl infoStep acc =
      (blocks.map (fun b => (normInfoLabel b.1, normInfoValue b.2))).foldl
        (fun a kv => setField a kv.1 kv.2) acc := by
  induction blocks with
  | nil => intro acc; rfl
  | cons b bs ih =>
    intro acc
    simp only [List.map_cons, List.foldl_cons]
    rw [show infoStep acc (Except.ok b) =
      setField acc (normInfoLabel b.1) (normInfoValue b.2) from rfl]
    exact ih _

lemma care_foldl_norm (pairs : List (String × String)) :
    ∀ acc, (∀ b ∈ pairs, careNormLabel b.1 ≠ "" ∧ careNormValue b.2 ≠ "") →
      (pairs.map (fun b => ((Except.ok b.1 : Except Unit String),
          (Except.ok b.2 : Except Unit String)))).foldl careStep acc =
        (pairs.map (fun b => (careNormLabel b.1, careNormValue b.2))).foldl
          (fun a kv => setField a kv.1 kv.2) acc := by
  induction pairs with
  | nil => intro acc _; rfl
  | cons p ps ih =>
    intro acc hne
    simp only [List.map_cons, List.foldl_cons]
    rw [show careStep acc (Except.ok p.1, Except.ok p.2) =
      if careNormLabel p.1 ≠ "" ∧ careNormValue p.2 ≠ "" then
        setField acc (careNormLabel p.1) (careNormValue p.2)
      else acc from rfl]
    rw [if_pos (hne p (List.mem_cons_self p ps))]
    exact ih _ (fun b hb => hne b (List.mem_cons_of_mem p hb))

lemma zip_map_ok (pairs : List (String × String)) :
    (pairs.map (fun b => (Except.ok b.1 : Except Unit String))).zip
      (pairs.map (fun b => (Except.ok b.2 : Except Unit String))) =
    pairs.map (fun b => ((Except.ok b.1 : Except Unit String),
      (Except.ok b.2 : Except Unit String))) := by
  induction pairs with
  | nil => rfl
  | cons p ps ih => simp only [List.map_cons, List.zip_cons_cons, ih]

/-!  ## Claim theorems -/

/-- C9 (corrected, counterexample): the claim asserts that the label
normalization applied by the extractors is idempotent for every label; the
care-description normalization of src/main.py line 79 strips before it
removes colons, so a colon at the edge can expose whitespace that a second
application then removes — on the label `"a :"` the first application yields
`"a "` and the second `"a"`. -/
theorem care_label_norm_not_idem_cex :
    careNormLabel (careNormLabel ("a :")) ≠ careNormLabel ("a :") := by decide

/-- C9 (amended): the label normalization of `extract_plant_info`
(src/main.py lines 35-36) is idempotent for every label string; the label
normalization of `extract_care_description` (line 79) is not idempotent in
general — applying it twice is the same as stripping its output once. -/
theorem label_norm_idem :
    (∀ s : String, normInfoLabel (normInfoLabel s) = normInfoLabel s) ∧
    (∀ s : String, careNormLabel (careNormLabel s) = trimStr (careNormLabel s)) := by
  constructor
  · intro s
    show strOf (normChain ':' (normChain ':' s.data)) = strOf (normChain ':' s.data)
    rw [normChain_idem colon_not_snd (by decide) s.data]
  · intro s
    show strOf (removeAll ':' (lowerAll (trim (removeAll ':' (lowerAll (trim s.data)))))) =
      strOf (trim (removeAll ':' (lowerAll (trim s.data))))
    rw [lowerAll_eq_self (fun c hc => careChain_fixed (mem_of_mem_trim hc)),
      removeAll_eq_self (fun h => careChain_no_colon (mem_of_mem_trim h))]

/-- Witness for C9 (amended): both conjuncts evaluated at concrete labels. -/
theorem label_norm_idem_witness :
    normInfoLabel (normInfoLabel ("  Plant Type: ")) = normInfoLabel ("  Plant Type: ") ∧
    careNormLabel (careNormLabel ("a :")) = trimStr (careNormLabel ("a :")) :=
  ⟨label_norm_idem.1 ("  Plant Type: "), label_norm_idem.2 ("a :")⟩

/-- C10 (confirmed): `extract_plant_info` normalizes the stored value by
deleting newline characters, replacing every space with an underscore and
lower-casing, so the rendered value `Full sun` is persisted as `full_sun`;
in general no character of a normalized info value is a space or a newline,
and every character is already lower-case. -/
theorem info_value_norm :
    normInfoValue ("Full sun") = "full_sun" ∧
    ∀ v : String, ∀ c ∈ (normInfoValue v).data, c ≠ ' ' ∧ c ≠ '\n' ∧ lowerChar c = c := by
  refine ⟨by decide, ?_⟩
  intro v c hc
  have hc2 : c ∈ normChain '\n' v.data := hc
  refine ⟨?_, ?_, normChain_fixed hc2⟩
  · intro e
    rw [e] at hc2
    exact normChain_no_space '\n' v.data hc2
  · intro e
    rw [e] at hc2
    exact normChain_no_k newline_not_snd (by decide) v.data hc2

/-- Witness for C10: the concrete evaluation at the value `Full sun` and its
first character. -/
theorem info_value_norm_witness :
    normInfoValue ("Full sun") = "full_sun" ∧
      'f' ∈ (normInfoValue ("Full sun")).data ∧ 'f' ≠ ' ' :=
  ⟨info_value_norm.1, by decide, (info_value_norm.2 ("Full sun") 'f' (by decide)).1⟩

/-- C2 (code bug): the spec and the repository's own test
(`test_main.py::test_extract_care_description_whitespace_cleaning`) require
care-description values to be trimmed but NOT lower-cased, yet
src/main.py line 80 ends its value pipeline in `.lower()`: on the test's own
input the stored value comes out lower-cased. -/
theorem care_value_lowercase_divergence :
    extract_care_description [Except.ok ("  WATERING  ")]
        [Except.ok ("  Water your plant every 7-10 days.  ")] =
      [("watering", "water your plant every 7-10 days.")] ∧
    ("water your plant every 7-10 days." : String) ≠
      "Water your plant every 7-10 days." := by
  constructor
  · decide
  · decide

/-- C7 (confirmed): whenever the care-description label block count differs
from the value block count, `extract_care_description` returns the empty
mapping (src/main.py lines 68-70). -/
theorem care_count_mismatch_empty (labels values : List (Except Unit String))
    (h : labels.length ≠ values.length) :
    extract_care_description labels values = [] := by
  unfold extract_care_description
  rw [if_pos h]

/-- Witness for C7: one label block against zero value blocks. -/
theorem care_count_mismatch_empty_witness :
    extract_care_description [Except.ok ("watering")] [] = [] ∧
      ([Except.ok ("watering")] : List (Except Unit String)).length ≠
        ([] : List (Except Unit String)).length :=
  ⟨care_count_mismatch_empty _ _ (by decide), by decide⟩

/-- C8 (corrected, counterexample): two blocks whose labels `A` and `a`
are non-empty (as are their values) normalize to the same key, so the
extractor returns a mapping of size 1, not 2. -/
theorem extract_dup_label_cex :
    (extract_plant_info [Except.ok (("A", "x")), Except.ok (("a", "y"))]).length = 1 ∧
      (1 : Nat) ≠ 2 ∧
      normInfoLabel ("A") = normInfoLabel ("a") ∧
      ("A" : String) ≠ "" ∧ ("a" : String) ≠ "" ∧
      ("x" : String) ≠ "" ∧ ("y" : String) ≠ "" := by decide

/-- C8 (amended): for well-formed block lists whose *normalized* labels are
pairwise distinct (and, for the care extractor, whose normalized labels and
values are non-empty), each extractor returns a mapping of exactly N entries
whose keys are the normalized labels in order. -/
theorem extract_size_eq_of_nodup :
    (∀ blocks : List (String × String),
      (blocks.map (fun b => normInfoLabel b.1)).Nodup →
        (extract_plant_info (blocks.map Except.ok)).length = blocks.length ∧
        fields (extract_plant_info (blocks.map Except.ok)) =
          blocks.map (fun b => normInfoLabel b.1)) ∧
    (∀ pairs : List (String × String),
      (pairs.map (fun b => careNormLabel b.1)).Nodup →
      (∀ b ∈ pairs, careNormLabel b.1 ≠ "" ∧ careNormValue b.2 ≠ "") →
        (extract_care_description
            (pairs.map (fun b => (Except.ok b.1 : Except Unit String)))
            (pairs.map (fun b => (Except.ok b.2 : Except Unit String)))).length =
          pairs.length ∧
        fields (extract_care_description
            (pairs.map (fun b => (Except.ok b.1 : Except Unit String)))
            (pairs.map (fun b => (Except.ok b.2 : Except Unit String)))) =
          pairs.map (fun b => careNormLabel b.1)) := by
  constructor
  · intro blocks hnd
    have e1 : extract_plant_info (blocks.map Except.ok) =
        blocks.map (fun b => (normInfoLabel b.1, normInfoValue b.2)) := by
      unfold extract_plant_info
      rw [info_foldl_norm blocks []]
      rw [foldl_setField_append _ []
        (by rw [List.map_map]; exact hnd) (fun kv _ => List.not_mem_nil kv.1)]
      exact List.nil_append _
    refine ⟨by rw [e1, List.length_map], ?_⟩
    rw [e1]
    unfold fields
    rw [List.map_map]
    rfl
  · intro pairs hnd hne
    have e1 : extract_care_description
        (pairs.map (fun b => (Except.ok b.1 : Except Unit String)))
        (pairs.map (fun b => (Except.ok b.2 : Except Unit String))) =
        pairs.map (fun b => (careNormLabel b.1, careNormValue b.2)) := by
      unfold extract_care_description
      rw [if_neg (by simp)]
      rw [zip_map_ok, care_foldl_norm pairs [] hne]
      rw [foldl_setField_append _ []
        (by rw [List.map_map]; exact hnd) (fun kv _ => List.not_mem_nil kv.1)]
      exact List.nil_append _
    refine ⟨by rw [e1, List.length_map], ?_⟩
    rw [e1]
    unfold fields
    rw [List.map_map]
    rfl

/-- Witness for C8 (amended): one well-formed block for each extractor. -/
theorem extract_size_eq_of_nodup_witness :
    (extract_plant_info [Except.ok (("Watering", "Frequent"))]).length = 1 ∧
      (extract_care_description [Except.ok ("Watering")]
        [Except.ok ("Keep moist.")]).length = 1 :=
  ⟨(extract_size_eq_of_nodup.1 [("Watering", "Frequent")] (by decide)).1,
   (extract_size_eq_of_nodup.2 [("Watering", "Keep moist.")] (by decide) (by decide)).1⟩

/-!  ## Record-assembly lemmas and claims C3, C4, C6 -/

lemma mem_fields_applyFields {r : List (String × String)} {k : String}
    (res : Except Unit (List (String × String))) (h : k ∈ fields r) :
    k ∈ fields (applyFields r res) := by
  cases res with
  | ok d => exact mem_fields_foldl d r h
  | error e => exact h

lemma getField_applyFields {r : List (String × String)} {k : String}
    {res : Except Unit (List (String × String))}
    (h : ∀ d, res = Except.ok d → k ∉ d.map Prod.fst) :
    getField (applyFields r res) k = getField r k := by
  cases res with
  | ok d => exact getField_foldl_not_mem (h d rfl) r
  | error e => rfl

lemma key_mem_applyFields {r : List (String × String)} {kv : String × String}
    {res : Except Unit (List (String × String))} {d : List (String × String)}
    (hres : res = Except.ok d) (hkv : kv ∈ d) : kv.1 ∈ fields (applyFields r res) := by
  rw [hres]
  exact key_mem_fields_foldl hkv r

/-- C3 (confirmed): over any id range, when the per-page output file exists
for every id in the range, the crawl loop's trace is exactly one skip log
per id — no page accessor is opened, nothing is saved and no delay runs. -/
theorem crawl_all_exist_skips (fileExists : Nat → Bool) (outcome : Nat → PageOutcome)
    (startPage endPage : Nat)
    (h : ∀ i, startPage ≤ i → i < endPage → fileExists i = true) :
    crawlEvents fileExists outcome startPage endPage =
      (List.range' startPage (endPage - startPage)).map CrawlEvent.logSkip ∧
    ∀ j r, CrawlEvent.openPage j ∉ crawlEvents fileExists outcome startPage endPage ∧
      CrawlEvent.delay j ∉ crawlEvents fileExists outcome startPage endPage ∧
      CrawlEvent.save j r ∉ crawlEvents fileExists outcome startPage endPage := by
  have h1 : crawlEvents fileExists outcome startPage endPage =
      (List.range' startPage (endPage - startPage)).map CrawlEvent.logSkip := by
    unfold crawlEvents
    exact crawl_aux fileExists outcome (endPage - startPage) startPage
      (fun i hi1 hi2 => h i hi1 (by omega))
  refine ⟨h1, ?_⟩
  intro j r
  refine ⟨?_, ?_, ?_⟩ <;>
    · rw [h1]
      intro hmem
      rw [List.mem_map] at hmem
      obtain ⟨i, _, e⟩ := hmem
      exact CrawlEvent.noConfusion e

/-- Witness for C3: ids 3, 4, 5 with every per-page file present. -/
theorem crawl_all_exist_skips_witness :
    crawlEvents (fun _ => true) (fun _ => PageOutcome.gotoFail) 3 6 =
      [CrawlEvent.logSkip 3, CrawlEvent.logSkip 4, CrawlEvent.logSkip 5] ∧
    CrawlEvent.openPage 4 ∉ crawlEvents (fun _ => true)
      (fun _ => PageOutcome.gotoFail) 3 6 := by
  have h := crawl_all_exist_skips (fun _ => true) (fun _ => PageOutcome.gotoFail) 3 6
    (fun i h1 h2 => rfl)
  exact ⟨h.1.trans (by decide), (h.2 4 []).1⟩

/-- C4 (confirmed): on a page where the id assignment and the
scientific-name step succeed, the record contains `id` and
`scientific_name` whatever the other two groups did, and every field of a
successful info group is still present — a care-group failure prevents
nothing. -/
theorem record_keeps_id_and_sci (i : Nat) (s : String)
    (info care : Except Unit (List (String × String))) :
    "id" ∈ fields (buildRecord i (Except.ok s) info care) ∧
    "scientific_name" ∈ fields (buildRecord i (Except.ok s) info care) ∧
    ∀ d, info = Except.ok d → ∀ kv ∈ d,
      kv.1 ∈ fields (buildRecord i (Except.ok s) info care) := by
  have hid : "id" ∈ fields (setField (setField [] "id" (toString i))
      "scientific_name" s) :=
    mem_fields_setField_mono _ _ (mem_fields_setField_self [] "id" (toString i))
  have hsci : "scientific_name" ∈ fields (setField (setField [] "id" (toString i))
      "scientific_name" s) :=
    mem_fields_setField_self _ _ _
  refine ⟨?_, ?_, ?_⟩
  · show ("id") ∈ fields (applyFields (applyFields
      (setField (setField [] "id" (toString i)) "scientific_name" s) info) care)
    exact mem_fields_applyFields care (mem_fields_applyFields info hid)
  · show ("scientific_name") ∈ fields (applyFields (applyFields
      (setField (setField [] "id" (toString i)) "scientific_name" s) info) care)
    exact mem_fields_applyFields care (mem_fields_applyFields info hsci)
  · intro d hd kv hkv
    show kv.1 ∈ fields (applyFields (applyFields
      (setField (setField [] "id" (toString i)) "scientific_name" s) info) care)
    exact mem_fields_applyFields care (key_mem_applyFields hd hkv)

/-- Witness for C4: page 5, scientific name extracted, info group returning
one field, care group raising. -/
theorem record_keeps_id_and_sci_witness :
    "id" ∈ fields (buildRecord 5 (Except.ok ("Abies"))
      (Except.ok [("watering", "frequent")]) (Except.error ())) ∧
    "watering" ∈ fields (buildRecord 5 (Except.ok ("Abies"))
      (Except.ok [("watering", "frequent")]) (Except.error ())) :=
  ⟨(record_keeps_id_and_sci 5 ("Abies") (Except.ok [("watering", "frequent")])
      (Except.error ())).1,
   (record_keeps_id_and_sci 5 ("Abies") (Except.ok [("watering", "frequent")])
      (Except.error ())).2.2 [("watering", "frequent")] rfl
      ("watering", "frequent") (List.mem_singleton.mpr rfl)⟩

/-- C6 (corrected, counterexample): the claim asserts the persisted `id`
value is always the page id rendered as text, but the group writes use the
same flat `data.loc` namespace, so an extracted field whose normalized
name is `id` (a page whose info block is labelled `ID`) silently overwrites
it: on page 7 the stored value becomes `42`, not `7`. -/
theorem record_id_overwritten_cex :
    getField (buildRecord 7 (Except.ok ("Abies alba"))
        (Except.ok (extract_plant_info [Except.ok (("ID", "42"))]))
        (Except.ok [])) ("id") = some ("42") ∧
      toString (7 : Nat) = "7" ∧ some ("42" : String) ≠ some ("7" : String) := by
  refine ⟨by decide, by decide, by decide⟩

/-- C6 (amended): the `id` column is present in every record the loop
persists — even when all three extractor groups fail — and its value is the
page id rendered as text unless some successful extractor group emitted a
field itself named `id`, which overwrites it (last writer wins). -/
theorem record_id_always_present (i : Nat) (sci : Except Unit String)
    (info care : Except Unit (List (String × String))) :
    "id" ∈ fields (buildRecord i sci info care) ∧
    ((∀ d, info = Except.ok d → "id" ∉ d.map Prod.fst) →
     (∀ d, care = Except.ok d → "id" ∉ d.map Prod.fst) →
      getField (buildRecord i sci info care) ("id") = some (toString i)) := by
  constructor
  · cases sci with
    | error e =>
      show ("id") ∈ fields (applyFields (applyFields (setField [] "id" (toString i))
        info) care)
      exact mem_fields_applyFields care (mem_fields_applyFields info
        (mem_fields_setField_self [] "id" (toString i)))
    | ok s =>
      show ("id") ∈ fields (applyFields (applyFields
        (setField (setField [] "id" (toString i)) "scientific_name" s) info) care)
      exact mem_fields_applyFields care (mem_fields_applyFields info
        (mem_fields_setField_mono _ _ (mem_fields_setField_self [] "id" (toString i))))
  · intro hinfo hcare
    have base : ∀ r1 : List (String × String), getField r1 ("id") = some (toString i) →
        getField (applyFields (applyFields r1 info) care) ("id") = some (toString i) := by
      intro r1 h1
      rw [getField_applyFields hcare, getField_applyFields hinfo, h1]
    cases sci with
    | error e =>
      show getField (applyFields (applyFields (setField [] "id" (toString i)) info)
        care) ("id") = some (toString i)
      exact base _ (getField_setField_self [] "id" (toString i))
    | ok s =>
      show getField (applyFields (applyFields
        (setField (setField [] "id" (toString i)) "scientific_name" s) info) care)
        ("id") = some (toString i)
      exact base _ (by
        rw [getField_setField_ne _ s (by decide), getField_setField_self])

/-- Witness for C6 (amended): page 3 with all three extractor groups
raising — `id` is still present and maps to `3`. -/
theorem record_id_always_present_witness :
    "id" ∈ fields (buildRecord 3 (Except.error ()) (Except.error ())
      (Except.error ())) ∧
    getField (buildRecord 3 (Except.error ()) (Except.error ()) (Except.error ()))
      ("id") = some (toString 3) :=
  ⟨(record_id_always_present 3 (Except.error ()) (Except.error ()) (Except.error ())).1,
   (record_id_always_present 3 (Except.error ()) (Except.error ()) (Except.error ())).2
     (fun _ hd => nomatch hd) (fun _ hd => nomatch hd)⟩

/-!  ## Merge claims C1 and C5 -/

lemma merge_csvs_ok_iff {files : List CsvFile} {hdr : List String}
    {rows : List (List (Option String))}
    (h : merge_csvs files = MergeResult.ok hdr rows) :
    hdr = sortCols (pass1 files) ∧ rows = (pass2 (sortCols (pass1 files)) files).1 ∧
    (pass2 (sortCols (pass1 files)) files).2 = false ∧ files ≠ [] := by
  by_cases hf : files.isEmpty
  · rw [merge_csvs, if_pos hf] at h
    exact MergeResult.noConfusion h
  · rw [merge_csvs, if_neg hf] at h
    by_cases hab : (pass2 (sortCols (pass1 files)) files).2
    · rw [if_pos hab] at h
      exact MergeResult.noConfusion h
    · rw [if_neg hab] at h
      injection h with h1 h2
      refine ⟨h1.symm, h2.symm, by rwa [Bool.not_eq_true] at hab, ?_⟩
      intro e
      rw [e] at hf
      exact hf rfl

/-- C1 (confirmed): whenever `merge_csvs` completes, the consolidated header
is the sorted, duplicate-free union of the column names read across the
input files, the emitted rows are each file's rows reindexed onto that
header in file-enumeration order, and a reindexed row is null exactly at
the columns absent from its source file, carrying present columns over by
name. -/
theorem merge_csvs_schema_union (files : List CsvFile) (hdr : List String)
    (rows : List (List (Option String)))
    (hok : merge_csvs files = MergeResult.ok hdr rows) :
    hdr.Sorted (fun a b => strLe a b = true) ∧ hdr.Nodup ∧
    (∀ cn, cn ∈ hdr ↔ ∃ f ∈ files, ∃ cols, readHeader f = Except.ok cols ∧ cn ∈ cols) ∧
    rows = files.flatMap (fun f =>
      match readFull f with
      | .ok cr => cr.2.map (reindexRow cr.1 hdr)
      | .error _ => []) ∧
    (∀ cols row k, k < hdr.length →
      (reindexRow cols hdr row).getD k none =
        if hdr.getD k ("") ∈ cols then
          some (row.getD (List.indexOf (hdr.getD k ("")) cols) "")
        else none) := by
  obtain ⟨h1, h2, h3, _⟩ := merge_csvs_ok_iff hok
  subst h1
  subst h2
  refine ⟨sorted_sortCols _, nodup_sortCols (nodup_pass1 files), ?_, ?_, ?_⟩
  · intro cn
    rw [mem_sortCols, mem_pass1]
  · exact pass2_rows_of_not_aborted _ files h3
  · intro cols row k hk
    exact reindexRow_getD cols _ row hk

/-- Witness for C1: the spec's merge round-trip scenario — files with
columns `{id, scientific_name, watering}` and `{id, sunlight}`. -/
theorem merge_csvs_schema_union_witness :
    merge_csvs [CsvFile.table ["id", "scientific_name", "watering"]
        [["3", "abc", "every 3 days"]],
      CsvFile.table ["id", "sunlight"] [["4", "full sun"]]] =
      MergeResult.ok ["id", "scientific_name", "sunlight", "watering"]
        [[some ("3"), some ("abc"), none, some ("every 3 days")],
         [some ("4"), none, some ("full sun"), none]] ∧
    List.Sorted (fun a b => strLe a b = true)
      ["id", "scientific_name", "sunlight", "watering"] := by
  have h := merge_csvs_schema_union
    [CsvFile.table ["id", "scientific_name", "watering"] [["3", "abc", "every 3 days"]],
     CsvFile.table ["id", "sunlight"] [["4", "full sun"]]]
    ["id", "scientific_name", "sunlight", "watering"]
    [[some ("3"), some ("abc"), none, some ("every 3 days")],
     [some ("4"), none, some ("full sun"), none]] (by decide)
  exact ⟨by decide, h.1⟩

/-- C5 (corrected, counterexample): the claim asserts a file that fails to
parse is skipped and the merge still completes, but src/merge_data.py line
47 catches only `EmptyDataError`; a `ParserError` on the full read escapes
the pass-2 loop, so the merge aborts with only the rows before the bad file
written — without the bad file the same inputs merge to completion. -/
theorem merge_parse_error_aborts_cex :
    merge_csvs [CsvFile.table ["a"] [["x"]], CsvFile.malformed ["b"],
        CsvFile.table ["c"] [["y"]]] =
      MergeResult.aborted ["a", "b", "c"] [[some ("x"), none, none]] ∧
    merge_csvs [CsvFile.table ["a"] [["x"]], CsvFile.table ["c"] [["y"]]] =
      MergeResult.ok ["a", "c"] [[some ("x"), none], [none, some ("y")]] := by
  exact ⟨by decide, by decide⟩

/-- C5 (amended): files that raise `EmptyDataError` — empty/header-less
files — are skipped in both passes without aborting: with no
`ParserError`-raising file among the inputs the merge completes, and
prepending an empty file changes nothing. -/
theorem merge_empty_files_skipped (files : List CsvFile)
    (hnm : ∀ f ∈ files, isMalformed f = false) (hne : files ≠ []) :
    (∃ hdr rows, merge_csvs files = MergeResult.ok hdr rows) ∧
    merge_csvs (CsvFile.empty :: files) = merge_csvs files := by
  have hfe : files.isEmpty = false := by
    cases files with
    | nil => exact absurd rfl hne
    | cons f fs => rfl
  have hab : (pass2 (sortCols (pass1 files)) files).2 = false :=
    pass2_not_aborted_of_no_malformed _ files hnm
  have hp1 : pass1 (CsvFile.empty :: files) = pass1 files := rfl
  have hp2 : ∀ fc, pass2 fc (CsvFile.empty :: files) = pass2 fc files := by
    intro fc
    simp [pass2, readFull]
  constructor
  · refine ⟨sortCols (pass1 files), (pass2 (sortCols (pass1 files)) files).1, ?_⟩
    rw [merge_csvs, if_neg (by rw [hfe]; exact Bool.false_ne_true),
      if_neg (by rw [hab]; exact Bool.false_ne_true)]
  · have eL : merge_csvs (CsvFile.empty :: files) =
        if (pass2 (sortCols (pass1 files)) files).2 then
          MergeResult.aborted (sortCols (pass1 files))
            (pass2 (sortCols (pass1 files)) files).1
        else MergeResult.ok (sortCols (pass1 files))
          (pass2 (sortCols (pass1 files)) files).1 := by
      rw [merge_csvs,
        if_neg (show ¬((CsvFile.empty :: files).isEmpty = true) by simp),
        hp1, hp2]
    have eR : merge_csvs files =
        if (pass2 (sortCols (pass1 files)) files).2 then
          MergeResult.aborted (sortCols (pass1 files))
            (pass2 (sortCols (pass1 files)) files).1
        else MergeResult.ok (sortCols (pass1 files))
          (pass2 (sortCols (pass1 files)) files).1 := by
      rw [merge_csvs, if_neg (by rw [hfe]; exact Bool.false_ne_true)]
    rw [eL, eR]

/-- Witness for C5 (amended): one well-formed single-row file, with and
without a prepended empty file. -/
theorem merge_empty_files_skipped_witness :
    (∃ hdr rows, merge_csvs [CsvFile.table ["a"] [["1"]]] =
      MergeResult.ok hdr rows) ∧
    merge_csvs (CsvFile.empty :: [CsvFile.table ["a"] [["1"]]]) =
      merge_csvs [CsvFile.table ["a"] [["1"]]] :=
  merge_empty_files_skipped [CsvFile.table ["a"] [["1"]]] (by decide) (by decide)

end Perenual
